import Mathlib

/-!
Verification of the prozess-doku application (src/unnamed/part_000) against its
specification.  The TypeScript source is shallowly embedded: pure helpers become
Lean functions, the React state becomes an explicit state record, the jsPDF
drawing calls become a writer-style trace of drawing operations, and JavaScript
values flowing through `loadProcess` become an explicit `Json` type.
-/

namespace ProzessDoku

/-! ## Version parsing and bumping (part_000 lines 80-90) -/

/-- JS regex class `\d`, i.e. the characters 0-9. -/
def isDigitCh (c : Char) : Bool := decide ('0' ≤ c) && decide (c ≤ '9')

/-- Decimal value of an all-digit character run, as `parseInt(_, 10)` computes it.
(JS numbers lose precision beyond 2^53; the claims only involve small values, so
the exact natural-number value is used.) -/
def digitsVal (cs : List Char) : Nat :=
  cs.foldl (fun a c => a * 10 + (c.toNat - 48)) 0

/-- Match of the anchored regex `(\d+)\.(\d+)`: the whole string must be a
nonempty digit run, a dot, and a nonempty digit run.  Since `\d` cannot match a
dot, the first group is exactly the maximal digit prefix.  Returns the numeric
values of the two groups on success. -/
def versionMatch (v : String) : Option (Nat × Nat) :=
  let cs := v.toList
  let ds1 := cs.takeWhile isDigitCh
  match cs.dropWhile isDigitCh with
  | '.' :: ds2 =>
    if ds1 ≠ [] ∧ ds2 ≠ [] ∧ ds2.all isDigitCh then some (digitsVal ds1, digitsVal ds2)
    else none
  | _ => none

/-- `parseVersion` from the source.  On no match it returns `{major: 1, minor: 0}`.
On a match, each group goes through `parseInt(..., 10) || fallback`: a parsed 0 is
falsy in JS, so `parseInt(m[1], 10) || 1` maps a major of 0 to 1, while
`parseInt(m[2], 10) || 0` leaves the minor unchanged. -/
def parseVersion (v : String) : Nat × Nat :=
  match versionMatch v with
  | none => (1, 0)
  | some (ma, mi) => (if ma = 0 then 1 else ma, mi)

/-- `bumpVersion` from the source: minor + 1, or major + 1 rolling the minor to 0
once the minor reaches 9. -/
def bumpVersion (v : String) : String :=
  let p := parseVersion v
  if p.2 < 9 then toString p.1 ++ "." ++ toString (p.2 + 1)
  else toString (p.1 + 1) ++ ".0"

/-- C5 counterexample: the claim ranges over decimal majors ≥ 0, but for the
version "0.3" the source's falsy fallback coerces the major 0 to 1, producing
"1.4" instead of the claimed "0.4". -/
theorem c5_counterexample :
    bumpVersion "0.3" = "1.4" ∧ bumpVersion "0.3" ≠ "0.4" := by decide

/-- C5 (amended): for every version string the regex parses as `(M, m)` with
M ≥ 1 and m ≤ 9, `bumpVersion` returns "M.(m+1)" when m < 9 and "(M+1).0" when
m = 9; in particular "1.3" bumps to "1.4" and "1.9" bumps to "2.0". -/
theorem c5_amended (v : String) (M m : Nat) (hM : 1 ≤ M) (hm : m ≤ 9)
    (hv : versionMatch v = some (M, m)) :
    bumpVersion v =
      (if m < 9 then toString M ++ "." ++ toString (m + 1) else toString (M + 1) ++ ".0") ∧
    bumpVersion "1.3" = "1.4" ∧ bumpVersion "1.9" = "2.0" := by
  refine ⟨?_, by decide, by decide⟩
  have hM0 : M ≠ 0 := by omega
  simp [bumpVersion, parseVersion, hv, hM0]

/-- Witness for `c5_amended` at the concrete version "1.3". -/
theorem c5_amended_witness :
    (1 ≤ 1 ∧ 3 ≤ 9 ∧ versionMatch "1.3" = some (1, 3)) ∧
    (bumpVersion "1.3" =
        (if 3 < 9 then toString 1 ++ "." ++ toString (3 + 1) else toString (1 + 1) ++ ".0") ∧
      bumpVersion "1.3" = "1.4" ∧ bumpVersion "1.9" = "2.0") :=
  ⟨⟨le_refl 1, by decide, by decide⟩,
    c5_amended "1.3" 1 3 (le_refl 1) (by decide) (by decide)⟩

/-- C10: any string the version regex rejects is parsed as major 1, minor 0, so
bumping it yields "1.1" rather than an error. -/
theorem c10_malformed_bump (v : String) (h : versionMatch v = none) :
    bumpVersion v = "1.1" := by
  simp only [bumpVersion, parseVersion, h]
  decide

/-- Witness for `c10_malformed_bump` at the concrete string "abc". -/
theorem c10_malformed_bump_witness :
    versionMatch "abc" = none ∧ bumpVersion "abc" = "1.1" :=
  ⟨by decide, c10_malformed_bump "abc" (by decide)⟩

/-! ## Data model (part_000 lines 56-74) -/

/-- A text item of a step: `{ id, content, important }`. -/
structure TextItem where
  id : String
  content : String
  important : Bool
deriving DecidableEq, Repr

/-- A step: `{ index, photos, texts, done? }`.  The optional `done` flag is
modelled as a `Bool`; an absent flag behaves exactly like `false` everywhere it
is read (`!!s.done` on load, key omission on save is unobservable). -/
structure StepData where
  index : Nat
  photos : List String
  texts : List TextItem
  done : Bool
deriving DecidableEq, Repr

/-- The process record: `{ name, version, createdAt, steps }`. -/
structure ProcessData where
  name : String
  version : String
  createdAt : String
  steps : List StepData
deriving DecidableEq, Repr

/-! ## ensureIndices and finishProcess (part_000 lines 126-130 and 234-258) -/

/-- The loop body of `ensureIndices`, started at position `n`:
`steps[i].index = i + 1` for every position. -/
def reindexFrom (n : Nat) : List StepData → List StepData
  | [] => []
  | s :: rest => { s with index := n + 1 } :: reindexFrom (n + 1) rest

/-- `ensureIndices` from the source: renumber all steps 1-based by position. -/
def ensureIndices (steps : List StepData) : List StepData := reindexFrom 0 steps

/-- `draft.steps[currentIndex].photos/texts = pending...` — an out-of-range
index leaves the list unchanged (the `if (step)` guard). -/
def writeBuffers (steps : List StepData) (i : Nat) (ph : List String)
    (tx : List TextItem) : List StepData :=
  match steps.get? i with
  | none => steps
  | some s => steps.set i { s with photos := ph, texts := tx }

/-- Cut off a trailing step with no photos and no texts (source lines 244-247). -/
def trimLastEmpty (steps : List StepData) : List StepData :=
  match steps.getLast? with
  | none => steps
  | some last => if last.photos = [] ∧ last.texts = [] then steps.dropLast else steps

/-- The canonicalized snapshot compared by `finishProcess`:
`JSON.stringify({...draft, createdAt: "X", version: "X"})` keeps every field of
the draft except `createdAt` and `version`, which are replaced by the constant
"X"; two such strings are equal exactly when name and steps agree. -/
structure Snapshot where
  name : String
  steps : List StepData
deriving DecidableEq, Repr

/-- Snapshot of a draft (volatile fields already dropped). -/
def snapOf (p : ProcessData) : Snapshot := { name := p.name, steps := p.steps }

/-- The React state relevant to finalization and loading. -/
structure AppState where
  process : Option ProcessData
  currentIndex : Nat
  pendingPhotos : List String
  pendingTexts : List TextItem
  lastSnapshot : Option Snapshot
  finalized : Bool
deriving DecidableEq, Repr

/-- The draft built at the start of `finishProcess`: deep copy of the process,
buffered editor values written into the current step, trailing empty step cut
off, indices renumbered. -/
def mkDraft (st : AppState) (p : ProcessData) : ProcessData :=
  { p with steps :=
      ensureIndices (trimLastEmpty (writeBuffers p.steps st.currentIndex
        st.pendingPhotos st.pendingTexts)) }

/-- `finishProcess` from the source: build the draft, compare its canonical
snapshot with the last one, bump the version only on a difference (or if no
snapshot was stored yet), store draft and snapshot, mark finalized. -/
def finishProcess (st : AppState) : AppState :=
  match st.process with
  | none => st
  | some p =>
    let draft := mkDraft st p
    let snap := snapOf draft
    let draft2 :=
      if st.lastSnapshot = some snap then draft
      else { draft with version := bumpVersion draft.version }
    { st with process := some draft2, lastSnapshot := some snap, finalized := true }

/-- The `useEffect` on `[currentIndex, process]` (source lines 115-124): reload
the editor buffers from the current step whenever the process or index changes.
(The draft text fields it also clears are not part of this model.) -/
def syncBuffers (st : AppState) : AppState :=
  match st.process with
  | none => st
  | some p =>
    match p.steps.get? st.currentIndex with
    | none => st
    | some s => { st with pendingPhotos := s.photos, pendingTexts := s.texts }

/-! ### Helper lemmas about the finalization pipeline -/

theorem List.set_get?_self {α : Type} (l : List α) (i : Nat) (a : α)
    (h : l[i]? = some a) : l.set i a = l := by
  induction l generalizing i with
  | nil => simp at h
  | cons x xs ih =>
    cases i with
    | zero => simp at h; simp [h]
    | succ n => simp at h; simp [List.set, ih n h]

theorem reindexFrom_idem (n : Nat) (l : List StepData) :
    reindexFrom n (reindexFrom n l) = reindexFrom n l := by
  induction l generalizing n with
  | nil => rfl
  | cons s rest ih => simp [reindexFrom, ih]

theorem ensureIndices_idem (l : List StepData) :
    ensureIndices (ensureIndices l) = ensureIndices l := reindexFrom_idem 0 l

/-- If the draft-building pipeline leaves the stored process unchanged and its
snapshot matches the stored one, `finishProcess` keeps the process as it is. -/
theorem finishProcess_stable (st : AppState) (q : ProcessData)
    (hq : st.process = some q)
    (hbuf : writeBuffers q.steps st.currentIndex st.pendingPhotos st.pendingTexts = q.steps)
    (htr : trimLastEmpty q.steps = q.steps)
    (hix : ensureIndices q.steps = q.steps)
    (hsnap : st.lastSnapshot = some (snapOf q)) :
    (finishProcess st).process = some q := by
  have hdraft : mkDraft st q = q := by
    simp only [mkDraft, hbuf, htr, hix]
  simp [finishProcess, hq, hdraft, hsnap]

/-- A state in which `finishProcess` is not idempotent: the process has a
nonempty first step and the trailing empty placeholder step, the editor buffers
for step 0 are empty, and nothing was finalized yet. -/
def c4state0 : AppState :=
  { process := some
      { name := "P"
        version := "1.0"
        createdAt := "C"
        steps := [{ index := 1
                    photos := ["d"]
                    texts := [{ id := "t", content := "x", important := false }]
                    done := true },
                  { index := 2, photos := [], texts := [], done := false }] }
    currentIndex := 0
    pendingPhotos := []
    pendingTexts := []
    lastSnapshot := none
    finalized := false }

/-- C4 counterexample: from `c4state0`, a first `finishProcess` empties step 1
(from the buffers) and trims the trailing placeholder, leaving one empty step;
the second `finishProcess`, with no intervening edits, trims that now-empty
last step as well, so the canonical snapshot differs again and the version is
bumped a second time — both the version and the content change on the second
call. -/
theorem c4_counterexample :
    ((finishProcess (syncBuffers (finishProcess c4state0))).process.map ProcessData.version ≠
        (finishProcess c4state0).process.map ProcessData.version) ∧
      ((finishProcess (syncBuffers (finishProcess c4state0))).process.map ProcessData.steps ≠
        (finishProcess c4state0).process.map ProcessData.steps) := by
  decide

/-- C4 (amended): `finishProcess` bumps the version exactly when the canonical
snapshot (all fields except `createdAt` and `version`) differs from the stored
one (or none is stored); and a second `finishProcess` with no intervening edits
(the editor buffers are re-synced from the stored process by the `useEffect`)
changes neither the version nor the content, provided the process produced by
the first call does not end in a step with no photos and no texts — if it does,
the second call trims that trailing empty step and bumps again. -/
theorem c4_amended (s : AppState) (p p1 : ProcessData)
    (hp : s.process = some p)
    (h1 : (finishProcess s).process = some p1)
    (ht : trimLastEmpty p1.steps = p1.steps) :
    (finishProcess s).process = some
        (if s.lastSnapshot = some (snapOf (mkDraft s p)) then mkDraft s p
         else { mkDraft s p with version := bumpVersion (mkDraft s p).version }) ∧
      (finishProcess (syncBuffers (finishProcess s))).process = some p1 := by
  have hfin : finishProcess s =
      { s with
          process := some (if s.lastSnapshot = some (snapOf (mkDraft s p)) then mkDraft s p
            else { mkDraft s p with version := bumpVersion (mkDraft s p).version })
          lastSnapshot := some (snapOf (mkDraft s p))
          finalized := true } := by
    simp [finishProcess, hp]
  have hp1 : (if s.lastSnapshot = some (snapOf (mkDraft s p)) then mkDraft s p
      else { mkDraft s p with version := bumpVersion (mkDraft s p).version }) = p1 := by
    rw [hfin] at h1
    exact Option.some.inj h1
  refine ⟨by rw [hfin], ?_⟩
  have hname : p1.name = (mkDraft s p).name := by
    rw [← hp1]; split <;> rfl
  have hsteps : p1.steps = (mkDraft s p).steps := by
    rw [← hp1]; split <;> rfl
  have hix : ensureIndices p1.steps = p1.steps := by
    rw [hsteps]
    show ensureIndices (mkDraft s p).steps = (mkDraft s p).steps
    simp only [mkDraft]
    exact ensureIndices_idem _
  have hsnapeq : snapOf p1 = snapOf (mkDraft s p) := by
    simp [snapOf, hname, hsteps]
  rw [hp1] at hfin
  rw [hfin]
  cases hget : p1.steps[s.currentIndex]? with
  | none =>
    have hsync : syncBuffers
        { s with
            process := some p1
            lastSnapshot := some (snapOf (mkDraft s p))
            finalized := true } =
        { s with
            process := some p1
            lastSnapshot := some (snapOf (mkDraft s p))
            finalized := true } := by
      simp [syncBuffers, hget]
    rw [hsync]
    refine finishProcess_stable _ p1 rfl ?_ ht hix (by rw [hsnapeq])
    simp [writeBuffers, List.get?_eq_getElem?, hget]
  | some st0 =>
    have hsync : syncBuffers
        { s with
            process := some p1
            lastSnapshot := some (snapOf (mkDraft s p))
            finalized := true } =
        { s with
            process := some p1
            pendingPhotos := st0.photos
            pendingTexts := st0.texts
            lastSnapshot := some (snapOf (mkDraft s p))
            finalized := true } := by
      simp [syncBuffers, hget]
    rw [hsync]
    refine finishProcess_stable _ p1 rfl ?_ ht hix (by rw [hsnapeq])
    show writeBuffers p1.steps s.currentIndex st0.photos st0.texts = p1.steps
    have hst0 : ({ st0 with photos := st0.photos, texts := st0.texts } : StepData) = st0 := rfl
    simp only [writeBuffers, List.get?_eq_getElem?, hget, hst0]
    exact List.set_get?_self _ _ _ hget

/-- Witness for `c4_amended`: a state with one committed step and matching
buffers; the first call trims nothing, so the second is a no-op. -/
def c4wstate : AppState :=
  { process := some
      { name := "W"
        version := "1.0"
        createdAt := "C"
        steps := [{ index := 1
                    photos := ["d"]
                    texts := [{ id := "t", content := "x", important := false }]
                    done := true }] }
    currentIndex := 0
    pendingPhotos := ["d"]
    pendingTexts := [{ id := "t", content := "x", important := false }]
    lastSnapshot := none
    finalized := false }

/-- The process stored in `c4wstate` before finalization. -/
def c4wp : ProcessData :=
  { name := "W"
    version := "1.0"
    createdAt := "C"
    steps := [{ index := 1
                photos := ["d"]
                texts := [{ id := "t", content := "x", important := false }]
                done := true }] }

/-- The process produced by the first `finishProcess` from `c4wstate`. -/
def c4wproc : ProcessData :=
  { name := "W"
    version := "1.1"
    createdAt := "C"
    steps := [{ index := 1
                photos := ["d"]
                texts := [{ id := "t", content := "x", important := false }]
                done := true }] }

theorem c4_amended_witness :
    ((finishProcess c4wstate).process = some
        (if c4wstate.lastSnapshot = some (snapOf (mkDraft c4wstate c4wp)) then
          mkDraft c4wstate c4wp
         else { mkDraft c4wstate c4wp with
                  version := bumpVersion (mkDraft c4wstate c4wp).version }) ∧
      (finishProcess (syncBuffers (finishProcess c4wstate))).process = some c4wproc) :=
  c4_amended c4wstate c4wp c4wproc (by decide) (by decide) (by decide)

/-! ## JavaScript values and saveProcess/loadProcess (part_000 lines 261-307)

`loadProcess` runs on whatever `JSON.parse` returned, so its input is modelled
as an explicit JSON value; `undefined` stands for JavaScript `undefined` (an absent
object field).  Numbers are modelled as integers — no claim involves fractional
or non-finite numbers. -/

inductive Json where
  | undefined
  | null
  | bool (b : Bool)
  | num (n : Int)
  | str (s : String)
  | arr (xs : List Json)
  | obj (fields : List (String × Json))

/-- JavaScript truthiness: `undefined`, `null`, `false`, `0` and `""` are falsy;
every array and object is truthy. -/
def truthy : Json → Bool
  | .undefined => false
  | .null => false
  | .bool b => b
  | .num n => decide (n ≠ 0)
  | .str s => decide (s ≠ "")
  | .arr _ => true
  | .obj _ => true

mutual

/-- JavaScript `String(x)`: identity on strings, decimal on numbers, the usual
words for the other primitives, comma-join for arrays (with `null`/`undefined`
elements rendered empty), and "[object Object]" for plain objects. -/
def jsToString : Json → String
  | .undefined => "undefined"
  | .null => "null"
  | .bool true => "true"
  | .bool false => "false"
  | .num n => toString n
  | .str s => s
  | .arr xs => jsArrToString xs
  | .obj _ => "[object Object]"

/-- `Array.prototype.toString`, i.e. `join(",")`. -/
def jsArrToString : List Json → String
  | [] => ""
  | [.undefined] => ""
  | [.null] => ""
  | [x] => jsToString x
  | .undefined :: xs => "," ++ jsArrToString xs
  | .null :: xs => "," ++ jsArrToString xs
  | x :: xs => jsToString x ++ "," ++ jsArrToString xs

end

/-- Property read `v.k` (or the optional-chained `v?.k`): field lookup on an
object, `undefined` on everything else — matching JS, where property access on
primitives yields `undefined` for these keys and optional chaining guards
`null`/`undefined`. -/
def jGet (j : Json) (k : String) : Json :=
  match j with
  | .obj fields =>
    match fields.find? (fun f => f.1 == k) with
    | some f => f.2
    | none => .undefined
  | _ => .undefined

/-- `Array.isArray`, keeping the elements. -/
def jArr? : Json → Option (List Json)
  | .arr xs => some xs
  | _ => none

/-- The load-time version check `/^\d+\.\d+$/.test(...)` (same language as the
anchored `(\d+)\.(\d+)` of `parseVersion`). -/
def versionOk (s : String) : Bool := (versionMatch s).isSome

/-- Normalization of one text item (source line 288):
`{ id: String(t?.id || uid()), content: String(t?.content || ""), important: !!t?.important }`.
`uid()` is modelled by the externally supplied string `fresh` (the claims never
need distinctness of generated ids). -/
def normText (fresh : String) (t : Json) : TextItem :=
  { id := if truthy (jGet t "id") then jsToString (jGet t "id") else fresh
    content := if truthy (jGet t "content") then jsToString (jGet t "content") else ""
    important := truthy (jGet t "important") }

/-- The object built for one step at 0-based position `i` (source lines 284-291),
assuming the field reads do not throw.  A non-number `index` defaults to `i + 1`
(a negative number is clamped — irrelevant, since `ensureIndices` overwrites
every index right after). -/
def normStepCore (fresh : String) (i : Nat) (s : Json) : StepData :=
  { index := match jGet s "index" with | .num n => n.toNat | _ => i + 1
    photos := match jArr? (jGet s "photos") with | some xs => xs.map jsToString | none => []
    texts := match jArr? (jGet s "texts") with
             | some xs => xs.map (normText fresh) | none => []
    done := truthy (jGet s "done") }

/-- One step of the `steps.map` callback: reading `s.index` on a `null` (or
`undefined`) element throws a TypeError, which the surrounding `try` turns into
a failed load. -/
def normStep (fresh : String) (i : Nat) (s : Json) : Option StepData :=
  match s with
  | .null => none
  | .undefined => none
  | _ => some (normStepCore fresh i s)

/-- The whole `steps.map`, aborting on the first throwing element. -/
def normSteps (fresh : String) : Nat → List Json → Option (List StepData)
  | _, [] => some []
  | i, s :: rest =>
    match normStep fresh i s with
    | none => none
    | some st =>
      match normSteps fresh (i + 1) rest with
      | none => none
      | some sts => some (st :: sts)

/-- `normSteps` on a list without throwing elements. -/
def normStepsCore (fresh : String) : Nat → List Json → List StepData
  | _, [] => []
  | i, s :: rest => normStepCore fresh i s :: normStepsCore fresh (i + 1) rest

/-- The body of `loadProcess` after `JSON.parse` succeeded: the structural
guard `!obj || !obj.name || !Array.isArray(obj.steps)` rejects, otherwise the
normalized record is built with per-field coercions and reindexed.  `now`
stands for `new Date().toISOString()`.  On the `version` and `createdAt` fields
the source keeps the raw JS value; this model stores its stringification, which
coincides whenever the raw value is a string (the typed `ProcessData` cannot
hold a non-string there). -/
def loadProcessParsed (now fresh : String) (obj : Json) : Option ProcessData :=
  if ¬ (truthy obj = true ∧ truthy (jGet obj "name") = true ∧ (jArr? (jGet obj "steps")).isSome)
  then none
  else
    match jArr? (jGet obj "steps") with
    | none => none
    | some rawSteps =>
      match normSteps fresh 0 rawSteps with
      | none => none
      | some sts =>
        some (let normalized : ProcessData :=
                { name := jsToString (jGet obj "name")
                  version := if versionOk (jsToString (jGet obj "version"))
                             then jsToString (jGet obj "version") else "1.0"
                  createdAt := if truthy (jGet obj "createdAt")
                               then jsToString (jGet obj "createdAt") else now
                  steps := sts }
              { normalized with steps := ensureIndices normalized.steps })

/-- The state effect of `loadProcess`: `none` as payload is a file whose text
`JSON.parse` rejects (the catch branch); a guard failure or a throwing step
element also leaves the prior state untouched; on success the process is
replaced, the editor moves to step 0 and buffers are loaded from it, and
snapshot/finalization are reset. -/
def applyLoad (st : AppState) (payload : Option Json) (now fresh : String) : AppState :=
  match payload with
  | none => st
  | some j =>
    match loadProcessParsed now fresh j with
    | none => st
    | some p =>
      { st with
          process := some p
          currentIndex := 0
          pendingPhotos := match p.steps.head? with | some s0 => s0.photos | none => []
          pendingTexts := match p.steps.head? with | some s0 => s0.texts | none => []
          lastSnapshot := none
          finalized := false }

/-- The step elements on which the `steps.map` callback throws. -/
def Json.isNullish : Json → Bool
  | .null => true
  | .undefined => true
  | _ => false

theorem reindexFrom_getElem? : ∀ (l : List StepData) (n i : Nat),
    (reindexFrom n l)[i]? = l[i]?.map (fun s => { s with index := n + i + 1 })
  | [], n, i => by simp [reindexFrom]
  | s :: rest, n, 0 => by simp [reindexFrom]
  | s :: rest, n, i + 1 => by
    have h := reindexFrom_getElem? rest (n + 1) i
    simp only [reindexFrom, List.getElem?_cons_succ, h]
    have e : n + 1 + i + 1 = n + (i + 1) + 1 := by omega
    simp [e]

theorem normStepsCore_getElem? (fresh : String) : ∀ (l : List Json) (n i : Nat),
    (normStepsCore fresh n l)[i]? = l[i]?.map (normStepCore fresh (n + i))
  | [], n, i => by simp [normStepsCore]
  | s :: rest, n, 0 => by simp [normStepsCore]
  | s :: rest, n, i + 1 => by
    have h := normStepsCore_getElem? fresh rest (n + 1) i
    simp only [normStepsCore, List.getElem?_cons_succ, h]
    have e : n + 1 + i = n + (i + 1) := by omega
    simp [e]

theorem normSteps_eq_core (fresh : String) : ∀ (n : Nat) (l : List Json),
    (∀ s ∈ l, Json.isNullish s = false) →
    normSteps fresh n l = some (normStepsCore fresh n l)
  | _, [] => fun _ => rfl
  | n, s :: rest => fun h => by
    have hs : Json.isNullish s = false := h s (List.mem_cons_self s rest)
    have hr := normSteps_eq_core fresh (n + 1) rest
      (fun x hx => h x (List.mem_cons_of_mem s hx))
    have hstep : normStep fresh n s = some (normStepCore fresh n s) := by
      cases s <;> simp [Json.isNullish] at hs <;> rfl
    simp [normSteps, hstep, hr, normStepsCore]

/-- A payload with a truthy name and a steps array whose elements all survive
the field reads loads to the normalized, reindexed record. -/
theorem loadProcessParsed_ok (now fresh : String) (j : Json) (rawSteps : List Json)
    (h1 : truthy j = true) (h2 : truthy (jGet j "name") = true)
    (h3 : jArr? (jGet j "steps") = some rawSteps)
    (h4 : ∀ s ∈ rawSteps, Json.isNullish s = false) :
    loadProcessParsed now fresh j = some
      { name := jsToString (jGet j "name")
        version := if versionOk (jsToString (jGet j "version"))
                   then jsToString (jGet j "version") else "1.0"
        createdAt := if truthy (jGet j "createdAt")
                     then jsToString (jGet j "createdAt") else now
        steps := ensureIndices (normStepsCore fresh 0 rawSteps) } := by
  simp [loadProcessParsed, h1, h2, h3, normSteps_eq_core fresh 0 rawSteps h4]

/-- C7 failing file: parsable JSON with a name and a steps array, but the array
holds `null`, so reading `s.index` throws and the whole load is rejected. -/
def c7file : Json := .obj [("name", .str "x"), ("steps", .arr [.null])]

/-- C7 counterexample: `c7file` is a parsable payload with a name and a steps
array, yet `loadProcess` rejects it instead of coercing and succeeding. -/
theorem c7_counterexample :
    truthy c7file = true ∧ truthy (jGet c7file "name") = true ∧
      (jArr? (jGet c7file "steps")).isSome = true ∧
      loadProcessParsed "T" "g" c7file = none := by
  refine ⟨rfl, rfl, rfl, rfl⟩

/-- C7 (amended): a parsable payload with a truthy `name` and a `steps` array
none of whose elements is `null` loads successfully, coercing malformed fields:
a version failing the `^\d+\.\d+$` test becomes "1.0", a missing (falsy)
`createdAt` becomes the current time, every step's index becomes its 1-based
position (so in particular a missing index does), and a text item with missing
`content` gets `""` and with missing `important` gets `false`.  A payload that
is wholly unparsable, lacks a truthy name or a steps array, or holds a `null`
step is rejected and the prior in-memory state is preserved. -/
theorem c7_amended (now fresh : String) (j : Json) (rawSteps : List Json) (st : AppState)
    (h1 : truthy j = true) (h2 : truthy (jGet j "name") = true)
    (h3 : jArr? (jGet j "steps") = some rawSteps)
    (h4 : ∀ s ∈ rawSteps, Json.isNullish s = false) :
    (∃ p, loadProcessParsed now fresh j = some p ∧
      (versionOk (jsToString (jGet j "version")) = false → p.version = "1.0") ∧
      (jGet j "createdAt" = Json.undefined → p.createdAt = now) ∧
      (∀ i s, rawSteps[i]? = some s →
        ∃ stp, p.steps[i]? = some stp ∧ stp.index = i + 1 ∧
          stp.texts = (match jArr? (jGet s "texts") with
                       | some ts => ts.map (normText fresh)
                       | none => []))) ∧
    (∀ t : Json, (jGet t "content" = Json.undefined → (normText fresh t).content = "") ∧
      (jGet t "important" = Json.undefined → (normText fresh t).important = false)) ∧
    (applyLoad st none now fresh = st) ∧
    (∀ j2, loadProcessParsed now fresh j2 = none → applyLoad st (some j2) now fresh = st) ∧
    (∀ j2, ¬ (truthy j2 = true ∧ truthy (jGet j2 "name") = true ∧
        (jArr? (jGet j2 "steps")).isSome = true) →
      loadProcessParsed now fresh j2 = none) := by
  refine ⟨⟨_, loadProcessParsed_ok now fresh j rawSteps h1 h2 h3 h4, ?_, ?_, ?_⟩, ?_, ?_, ?_, ?_⟩
  · intro hv; simp [hv]
  · intro hc; simp [hc, truthy]
  · intro i s hi
    refine ⟨{ normStepCore fresh i s with index := 0 + i + 1 }, ?_, by show 0 + i + 1 = i + 1; omega, rfl⟩
    show (ensureIndices (normStepsCore fresh 0 rawSteps))[i]? = _
    rw [ensureIndices, reindexFrom_getElem?, normStepsCore_getElem?]
    simp [hi]
  · intro t
    refine ⟨fun hc => ?_, fun hc => ?_⟩
    · simp [normText, hc, truthy]
    · simp [normText, hc, truthy]
  · rfl
  · intro j2 hn; simp [applyLoad, hn]
  · intro j2 hn
    unfold loadProcessParsed
    rw [if_pos]
    intro hcon
    exact hn ⟨hcon.1, hcon.2.1, hcon.2.2⟩

/-- A fixed prior state used to witness the failure clauses of `c7_amended`. -/
def c7wst : AppState :=
  { process := none
    currentIndex := 0
    pendingPhotos := []
    pendingTexts := []
    lastSnapshot := none
    finalized := false }

/-- C7 witness file: name present, one step whose texts hold one empty object
(so `content` and `important` are missing), no version, no createdAt. -/
def c7wfile : Json :=
  .obj [("name", .str "N"), ("steps", .arr [.obj [("texts", .arr [.obj []])]])]

theorem c7_amended_witness :
    (truthy c7wfile = true ∧ truthy (jGet c7wfile "name") = true ∧
      jArr? (jGet c7wfile "steps") = some [.obj [("texts", .arr [.obj []])]] ∧
      (∀ s ∈ ([.obj [("texts", .arr [.obj []])]] : List Json), Json.isNullish s = false)) ∧
    ((∃ p, loadProcessParsed "T" "g" c7wfile = some p ∧
      (versionOk (jsToString (jGet c7wfile "version")) = false → p.version = "1.0") ∧
      (jGet c7wfile "createdAt" = Json.undefined → p.createdAt = "T") ∧
      (∀ i s, ([.obj [("texts", .arr [.obj []])]] : List Json)[i]? = some s →
        ∃ stp, p.steps[i]? = some stp ∧ stp.index = i + 1 ∧
          stp.texts = (match jArr? (jGet s "texts") with
                       | some ts => ts.map (normText "g")
                       | none => []))) ∧
    (∀ t : Json, (jGet t "content" = Json.undefined → (normText "g" t).content = "") ∧
      (jGet t "important" = Json.undefined → (normText "g" t).important = false)) ∧
    (applyLoad c7wst none "T" "g" = c7wst) ∧
    (∀ j2, loadProcessParsed "T" "g" j2 = none → applyLoad c7wst (some j2) "T" "g" = c7wst) ∧
    (∀ j2, ¬ (truthy j2 = true ∧ truthy (jGet j2 "name") = true ∧
        (jArr? (jGet j2 "steps")).isSome = true) →
      loadProcessParsed "T" "g" j2 = none)) :=
  ⟨⟨rfl, rfl, rfl, by intro s hs; simp at hs; subst hs; rfl⟩,
    c7_amended "T" "g" c7wfile [.obj [("texts", .arr [.obj []])]] c7wst rfl rfl rfl
      (by intro s hs; simp at hs; subst hs; rfl)⟩

/-! ### Save/load round trip -/

/-- jsPDF A4 portrait width in pt. -/
def pageW : ℚ := 59528 / 100

/-- jsPDF A4 portrait height in pt. -/
def pageH : ℚ := 84189 / 100

/-- `const margin = 36`. -/
def pdfMargin : ℚ := 36

/-- `contentW = pageW - margin * 2`. -/
def contentW : ℚ := pageW - pdfMargin * 2

/-- DIN A6 width in pt (source line 324). -/
def A6W : ℚ := 29764 / 100

/-- DIN A6 height in pt (source line 325). -/
def A6H : ℚ := 42094 / 100

/-- `maxImgW = Math.min(A6W, contentW)`. -/
def maxImgW : ℚ := min A6W contentW

/-- `maxImgH = Math.min(A6H, pageH - margin * 2)`. -/
def maxImgH : ℚ := min A6H (pageH - pdfMargin * 2)

/-- `scaleDims` (source lines 364-367): shrink-to-fit scale, never above 1. -/
def scaleDims (d : ℚ × ℚ) : ℚ × ℚ :=
  let s := min (min (maxImgW / d.1) (maxImgH / d.2)) 1
  (d.1 * s, d.2 * s)

/-- The mutable drawing state: current (1-based) page, vertical offset, and
the jsPDF text color / font weight / font size. -/
structure Cursor where
  page : Nat
  y : ℚ
  color : Nat × Nat × Nat
  bold : Bool
  size : ℚ
deriving DecidableEq, Repr

/-- One drawing operation of the export.  `headerText` covers the two document
header lines, `footerText` one of the three footer fields (slot 0/1/2 for
left/center/right, all drawn at `pageH - 16`). -/
inductive Op where
  | headerText (page : Nat) (y : ℚ)
  | heading (stepPos stepIndex page : Nat) (y : ℚ) (color : Nat × Nat × Nat)
  | image (stepPos : Nat) (url : String) (page : Nat) (y w h : ℚ)
  | textLine (stepPos itemIdx lineIdx : Nat) (line : String) (page : Nat) (y : ℚ)
      (color : Nat × Nat × Nat) (bold : Bool)
  | footerText (page total slot : Nat) (color : Nat × Nat × Nat)
deriving DecidableEq, Repr

/-- `spaceLeft()` (source lines 350-352). -/
def spaceLeft (c : Cursor) : ℚ := pageH - pdfMargin - c.y

/-- `addPage()` (source lines 346-349). -/
def addPage (c : Cursor) : Cursor := { c with page := c.page + 1, y := pdfMargin }

/-- `ensureSpace(needed)` (source lines 353-355). -/
def ensureSpace (needed : ℚ) (c : Cursor) : Cursor :=
  if spaceLeft c < needed then addPage c else c

/-- The image-metadata collaborator: `loadImage` resolving to the intrinsic
pixel dimensions, or `none` when decoding fails (`onerror`). -/
def ImgEnv : Type := String → Option (ℚ × ℚ)

/-- The text-measurement collaborator: `pdf.splitTextToSize(_, contentW)`. -/
def TextWrap : Type := String → List String

/-- One iteration of the photo loop (source lines 396-407): a failed load is
skipped, otherwise the image is scaled, placed after an `ensureSpace` for its
full height, and `y` advances by the height plus a 12 pt gap. -/
def drawImage (env : ImgEnv) (sp : Nat) (url : String) (c : Cursor) : Cursor × List Op :=
  match env url with
  | none => (c, [])
  | some d =>
    let dd := scaleDims d
    let c1 := ensureSpace dd.2 c
    ({ c1 with y := c1.y + dd.2 + 12 }, [.image sp url c1.page c1.y dd.1 dd.2])

/-- The photo loop. -/
def drawImages (env : ImgEnv) (sp : Nat) : List String → Cursor → Cursor × List Op
  | [], c => (c, [])
  | u :: us, c =>
    let r1 := drawImage env sp u c
    let r2 := drawImages env sp us r1.1
    (r2.1, r1.2 ++ r2.2)

/-- The wrapped-line loop of one text block (source lines 429-432): each line
is drawn at the current `y`, which advances by the 14 pt line height; the page
is never touched here. -/
def drawLines (sp it : Nat) : Nat → List String → Cursor → Cursor × List Op
  | _, [], c => (c, [])
  | li, l :: ls, c =>
    let r := drawLines sp it (li + 1) ls { c with y := c.y + 14 }
    (r.1, .textLine sp it li l c.page c.y c.color c.bold :: r.2)

/-- One text item (source lines 412-434): wrap `"<index>.<i+1> " + content`,
reserve the whole line group plus 6 pt padding at once, set color/weight from
`important`, draw the lines, add the trailing 6 pt padding. -/
def drawTextBlock (wrap : TextWrap) (sp it stepIndex : Nat) (t : TextItem)
    (c : Cursor) : Cursor × List Op :=
  let full := toString stepIndex ++ "." ++ toString (it + 1) ++ " " ++ t.content
  let lines := wrap full
  let blockHeight : ℚ := lines.length * 14 + 6
  let c1 := ensureSpace blockHeight c
  let c2 := if t.important then { c1 with color := (200, 0, 0), bold := true }
            else { c1 with color := (0, 0, 0), bold := false }
  let r := drawLines sp it 0 lines c2
  ({ r.1 with y := r.1.y + 6 }, r.2)

/-- The text loop of one step. -/
def drawTexts (wrap : TextWrap) (sp stepIndex : Nat) :
    Nat → List TextItem → Cursor → Cursor × List Op
  | _, [], c => (c, [])
  | i, t :: ts, c =>
    let r1 := drawTextBlock wrap sp i stepIndex t c
    let r2 := drawTexts wrap sp stepIndex (i + 1) ts r1.1
    (r2.1, r1.2 ++ r2.2)

/-- The look-ahead reserve before a step heading (source lines 374-386):
20 pt for the heading plus the scaled height of the first photo plus 12 pt
(120 pt if it fails to decode), or 40 pt if the step has no photos. -/
def stepReserve (env : ImgEnv) (step : StepData) : ℚ :=
  20 + (match step.photos with
        | [] => 40
        | u :: _ => match env u with
          | some d => (scaleDims d).2 + 12
          | none => 120)

/-- A step after its reserve check: bold 13 pt heading at the current position,
`y += 20`, the photo loop, font back to normal 11 pt, the text loop, and a 6 pt
step gap (source lines 389-436). -/
def stepBody (env : ImgEnv) (wrap : TextWrap) (sp : Nat) (step : StepData)
    (c : Cursor) : Cursor × List Op :=
  let c1 := { c with bold := true, size := 13 }
  let c2 := { c1 with y := c1.y + 20 }
  let ri := drawImages env sp step.photos c2
  let c3 := { ri.1 with bold := false, size := 11 }
  let rt := drawTexts wrap sp step.index 0 step.texts c3
  ({ rt.1 with y := rt.1.y + 6 },
    .heading sp step.index c1.page c1.y c1.color :: (ri.2 ++ rt.2))

/-- One iteration of the step loop: skip a step with no photos and no texts,
otherwise run the reserve check and the step body. -/
def processStep (env : ImgEnv) (wrap : TextWrap) (sp : Nat) (step : StepData)
    (c : Cursor) : Cursor × List Op :=
  if step.photos = [] ∧ step.texts = [] then (c, [])
  else stepBody env wrap sp step (ensureSpace (stepReserve env step) c)

/-- The step loop (source line 370), carrying the loop counter `s`. -/
def runSteps (env : ImgEnv) (wrap : TextWrap) :
    Nat → List StepData → Cursor → Cursor × List Op
  | _, [], c => (c, [])
  | sp, st :: sts, c =>
    let r1 := processStep env wrap sp st c
    let r2 := runSteps env wrap (sp + 1) sts r1.1
    (r2.1, r1.2 ++ r2.2)

/-- jsPDF starts on page 1 at the top margin with black normal 16 pt text. -/
def initCursor : Cursor :=
  { page := 1, y := pdfMargin, color := (0, 0, 0), bold := false, size := 16 }

/-- The document header (source lines 331-344): bold 16 pt title, `y += 18`,
normal 10 pt metadata line, `y += 14`, a rule, `y += 10`. -/
def drawHeader (c : Cursor) : Cursor × List Op :=
  let c1 := { c with bold := true, size := 16 }
  let c2 := { c1 with y := c1.y + 18, bold := false, size := 10 }
  let c3 := { c2 with y := c2.y + 14 }
  let c4 := { c3 with y := c3.y + 10 }
  (c4, [.headerText c1.page c1.y, .headerText c2.page c2.y])

/-- The footer pass (source lines 440-451): for every page 1..total, set the
font to normal 9 pt and draw the three footer fields.  No `setTextColor` is
issued here, so the fields inherit whatever text color is current. -/
def footerOps (total : Nat) (c : Cursor) : List Op :=
  (List.range total).flatMap fun i =>
    [.footerText (i + 1) total 0 c.color, .footerText (i + 1) total 1 c.color,
     .footerText (i + 1) total 2 c.color]

/-- The whole `exportPDF` drawing pass: header, step loop, then the footer pass
over `pdf.getNumberOfPages()` = the final page counter. -/
def runExport (env : ImgEnv) (wrap : TextWrap) (p : ProcessData) : Cursor × List Op :=
  let rh := drawHeader initCursor
  let rs := runSteps env wrap 0 p.steps rh.1
  (rs.1, rh.2 ++ rs.2 ++ footerOps rs.1.page rs.1)

/-! ### C3: image scaling -/

/-- C3: for positive intrinsic dimensions the rendered size is the intrinsic
size times `s = min(maxImgW / w, maxImgH / h, 1)`; the scale never exceeds 1
(no upscaling), the result fits in the maximum image box, and the aspect ratio
is preserved. -/
theorem c3_scaleDims (w h : ℚ) (hw : 0 < w) (hh : 0 < h) :
    scaleDims (w, h) = (w * min (min (maxImgW / w) (maxImgH / h)) 1,
        h * min (min (maxImgW / w) (maxImgH / h)) 1) ∧
      min (min (maxImgW / w) (maxImgH / h)) 1 ≤ 1 ∧
      (scaleDims (w, h)).1 ≤ maxImgW ∧
      (scaleDims (w, h)).2 ≤ maxImgH ∧
      (scaleDims (w, h)).1 ≤ w ∧
      (scaleDims (w, h)).2 ≤ h ∧
      (scaleDims (w, h)).1 * h = (scaleDims (w, h)).2 * w := by
  have hs1 : min (min (maxImgW / w) (maxImgH / h)) 1 ≤ 1 := min_le_right _ _
  have hsw : min (min (maxImgW / w) (maxImgH / h)) 1 ≤ maxImgW / w :=
    le_trans (min_le_left _ _) (min_le_left _ _)
  have hsh : min (min (maxImgW / w) (maxImgH / h)) 1 ≤ maxImgH / h :=
    le_trans (min_le_left _ _) (min_le_right _ _)
  refine ⟨rfl, hs1, ?_, ?_, ?_, ?_, ?_⟩
  · show w * min (min (maxImgW / w) (maxImgH / h)) 1 ≤ maxImgW
    calc w * min (min (maxImgW / w) (maxImgH / h)) 1
        ≤ w * (maxImgW / w) := by
          exact mul_le_mul_of_nonneg_left hsw (le_of_lt hw)
      _ = maxImgW := by field_simp
  · show h * min (min (maxImgW / w) (maxImgH / h)) 1 ≤ maxImgH
    calc h * min (min (maxImgW / w) (maxImgH / h)) 1
        ≤ h * (maxImgH / h) := by
          exact mul_le_mul_of_nonneg_left hsh (le_of_lt hh)
      _ = maxImgH := by field_simp
  · show w * min (min (maxImgW / w) (maxImgH / h)) 1 ≤ w
    calc w * min (min (maxImgW / w) (maxImgH / h)) 1
        ≤ w * 1 := mul_le_mul_of_nonneg_left hs1 (le_of_lt hw)
      _ = w := mul_one w
  · show h * min (min (maxImgW / w) (maxImgH / h)) 1 ≤ h
    calc h * min (min (maxImgW / w) (maxImgH / h)) 1
        ≤ h * 1 := mul_le_mul_of_nonneg_left hs1 (le_of_lt hh)
      _ = h := mul_one h
  · show w * min (min (maxImgW / w) (maxImgH / h)) 1 * h =
      h * min (min (maxImgW / w) (maxImgH / h)) 1 * w
    ring

/-- Witness for `c3_scaleDims` at a 1000 × 500 px image. -/
theorem c3_scaleDims_witness :
    ((0 : ℚ) < 1000 ∧ (0 : ℚ) < 500) ∧
    (scaleDims (1000, 500) = (1000 * min (min (maxImgW / 1000) (maxImgH / 500)) 1,
        500 * min (min (maxImgW / 1000) (maxImgH / 500)) 1) ∧
      min (min (maxImgW / 1000) (maxImgH / 500)) 1 ≤ 1 ∧
      (scaleDims (1000, 500)).1 ≤ maxImgW ∧
      (scaleDims (1000, 500)).2 ≤ maxImgH ∧
      (scaleDims (1000, 500)).1 ≤ 1000 ∧
      (scaleDims (1000, 500)).2 ≤ 500 ∧
      (scaleDims (1000, 500)).1 * 500 = (scaleDims (1000, 500)).2 * 1000) :=
  ⟨⟨by norm_num, by norm_num⟩, c3_scaleDims 1000 500 (by norm_num) (by norm_num)⟩

/-! ### C9: the important-text color is never reset after drawing -/

/-- Image collaborator for the C9 runs: no photos are used. -/
def c9env : ImgEnv := fun _ => none

/-- Text collaborator for the C9 runs: every string wraps to a single line. -/
def c9wrap : TextWrap := fun s => [s]

/-- A finalized process whose single step ends with an important text item. -/
def c9proc : ProcessData :=
  { name := "P"
    version := "1.0"
    createdAt := "C"
    steps := [{ index := 1
                photos := []
                texts := [{ id := "a", content := "warn", important := true }]
                done := false }] }

/-- Two steps: the first ends with an important item, the second starts with a
heading and holds a normal item. -/
def c9proc2 : ProcessData :=
  { name := "P"
    version := "1.0"
    createdAt := "C"
    steps := [{ index := 1
                photos := []
                texts := [{ id := "a", content := "warn", important := true }]
                done := false },
              { index := 2
                photos := []
                texts := [{ id := "b", content := "ok", important := false }]
                done := false }] }

/-- C9 (code bug, evaluated at the failing inputs): after an important text
item is drawn in red (200, 0, 0), no reset is issued, so the next step's
heading is drawn red, and when the document ends on an important item the
whole footer pass is drawn red. -/
theorem c9_color_leak :
    Op.heading 1 2 1 124 (200, 0, 0) ∈ (runExport c9env c9wrap c9proc2).2 ∧
      Op.footerText 1 1 0 (200, 0, 0) ∈ (runExport c9env c9wrap c9proc).2 ∧
      (runExport c9env c9wrap c9proc).1.color = (200, 0, 0) := by
  norm_num [runExport, drawHeader, runSteps, processStep, stepBody, stepReserve,
    drawImages, drawTexts, drawTextBlock, drawLines, ensureSpace, spaceLeft,
    addPage, initCursor, footerOps, c9env, c9wrap, c9proc, c9proc2,
    pageH, pdfMargin]

/-! ### Page bookkeeping lemmas -/

/-- The page an operation was drawn on. -/
def opPage : Op → Nat
  | .headerText pg _ => pg
  | .heading _ _ pg _ _ => pg
  | .image _ _ pg _ _ _ => pg
  | .textLine _ _ _ _ pg _ _ _ => pg
  | .footerText pg _ _ _ => pg

theorem ensureSpace_page_le (n : ℚ) (c : Cursor) : c.page ≤ (ensureSpace n c).page := by
  unfold ensureSpace addPage
  split
  · exact Nat.le_succ _
  · exact le_refl _

theorem drawImage_page_le (env : ImgEnv) (sp : Nat) (u : String) (c : Cursor) :
    c.page ≤ (drawImage env sp u c).1.page := by
  unfold drawImage
  split
  · exact le_refl _
  · exact ensureSpace_page_le _ _

theorem drawImage_ops_le (env : ImgEnv) (sp : Nat) (u : String) (c : Cursor) :
    ∀ op ∈ (drawImage env sp u c).2, c.page ≤ opPage op := by
  unfold drawImage
  split
  · intro op h; simp at h
  · intro op h
    simp at h
    subst h
    exact ensureSpace_page_le _ _

theorem drawImages_page_le (env : ImgEnv) (sp : Nat) :
    ∀ (us : List String) (c : Cursor), c.page ≤ (drawImages env sp us c).1.page
  | [], _ => le_refl _
  | u :: us, c =>
    le_trans (drawImage_page_le env sp u c) (drawImages_page_le env sp us _)

theorem drawImages_ops_le (env : ImgEnv) (sp : Nat) :
    ∀ (us : List String) (c : Cursor), ∀ op ∈ (drawImages env sp us c).2, c.page ≤ opPage op
  | [], c => by intro op h; simp [drawImages] at h
  | u :: us, c => by
    intro op h
    simp only [drawImages, List.mem_append] at h
    cases h with
    | inl h1 => exact drawImage_ops_le env sp u c op h1
    | inr h2 =>
      exact le_trans (drawImage_page_le env sp u c)
        (drawImages_ops_le env sp us _ op h2)

theorem drawLines_page_eq (sp it : Nat) :
    ∀ (li : Nat) (ls : List String) (c : Cursor), (drawLines sp it li ls c).1.page = c.page
  | _, [], _ => rfl
  | li, l :: ls, c => drawLines_page_eq sp it (li + 1) ls { c with y := c.y + 14 }

/-- Every operation of the line loop is a text line of the enclosing block,
drawn on the cursor's page with its color and weight, and with a line counter
at least the starting one. -/
theorem drawLines_ops_char (sp it : Nat) :
    ∀ (li : Nat) (ls : List String) (c : Cursor), ∀ op ∈ (drawLines sp it li ls c).2,
      ∃ li2 l y, op = Op.textLine sp it li2 l c.page y c.color c.bold ∧ li ≤ li2
  | li, [], c => by intro op h; simp [drawLines] at h
  | li, l :: ls, c => by
    intro op h
    simp only [drawLines, List.mem_cons] at h
    cases h with
    | inl h1 => exact ⟨li, l, c.y, h1, le_refl li⟩
    | inr h2 =>
      obtain ⟨li2, l2, y2, heq, hle⟩ :=
        drawLines_ops_char sp it (li + 1) ls { c with y := c.y + 14 } op h2
      exact ⟨li2, l2, y2, heq, by omega⟩

theorem drawTextBlock_page_le (wrap : TextWrap) (sp it sidx : Nat) (t : TextItem)
    (c : Cursor) : c.page ≤ (drawTextBlock wrap sp it sidx t c).1.page := by
  unfold drawTextBlock
  split <;>
    simp only [drawLines_page_eq] <;>
    exact ensureSpace_page_le _ _

/-- Every operation of one text block is a text line with the block's
provenance, drawn on the block's final page. -/
theorem drawTextBlock_ops_char (wrap : TextWrap) (sp it sidx : Nat) (t : TextItem)
    (c : Cursor) :
    ∀ op ∈ (drawTextBlock wrap sp it sidx t c).2,
      ∃ li l y col b,
        op = Op.textLine sp it li l ((drawTextBlock wrap sp it sidx t c).1.page) y col b := by
  unfold drawTextBlock
  split
  · intro op h
    obtain ⟨li, l, y, heq, -⟩ := drawLines_ops_char sp it 0 _ _ op h
    refine ⟨li, l, y, (200, 0, 0), true, ?_⟩
    rw [heq]
    simp only [drawLines_page_eq]
  · intro op h
    obtain ⟨li, l, y, heq, -⟩ := drawLines_ops_char sp it 0 _ _ op h
    refine ⟨li, l, y, (0, 0, 0), false, ?_⟩
    rw [heq]
    simp only [drawLines_page_eq]

theorem drawTextBlock_ops_le (wrap : TextWrap) (sp it sidx : Nat) (t : TextItem)
    (c : Cursor) :
    ∀ op ∈ (drawTextBlock wrap sp it sidx t c).2, c.page ≤ opPage op := by
  intro op h
  obtain ⟨li, l, y, col, b, heq⟩ := drawTextBlock_ops_char wrap sp it sidx t c op h
  rw [heq]
  exact drawTextBlock_page_le wrap sp it sidx t c

theorem drawTexts_page_le (wrap : TextWrap) (sp sidx : Nat) :
    ∀ (i : Nat) (ts : List TextItem) (c : Cursor),
      c.page ≤ (drawTexts wrap sp sidx i ts c).1.page
  | _, [], _ => le_refl _
  | i, t :: ts, c =>
    le_trans (drawTextBlock_page_le wrap sp i sidx t c)
      (drawTexts_page_le wrap sp sidx (i + 1) ts _)

theorem drawTexts_ops_le (wrap : TextWrap) (sp sidx : Nat) :
    ∀ (i : Nat) (ts : List TextItem) (c : Cursor),
      ∀ op ∈ (drawTexts wrap sp sidx i ts c).2, c.page ≤ opPage op
  | _, [], c => by intro op h; simp [drawTexts] at h
  | i, t :: ts, c => by
    intro op h
    simp only [drawTexts, List.mem_append] at h
    cases h with
    | inl h1 => exact drawTextBlock_ops_le wrap sp i sidx t c op h1
    | inr h2 =>
      exact le_trans (drawTextBlock_page_le wrap sp i sidx t c)
        (drawTexts_ops_le wrap sp sidx (i + 1) ts _ op h2)

theorem stepBody_page_le (env : ImgEnv) (wrap : TextWrap) (sp : Nat) (step : StepData)
    (c : Cursor) : c.page ≤ (stepBody env wrap sp step c).1.page := by
  have h1 := drawImages_page_le env sp step.photos
    { c with y := c.y + 20, bold := true, size := 13 }
  have h2 := drawTexts_page_le wrap sp step.index 0 step.texts
    { (drawImages env sp step.photos
        { c with y := c.y + 20, bold := true, size := 13 }).1 with bold := false, size := 11 }
  exact le_trans h1 h2

theorem stepBody_ops_le (env : ImgEnv) (wrap : TextWrap) (sp : Nat) (step : StepData)
    (c : Cursor) : ∀ op ∈ (stepBody env wrap sp step c).2, c.page ≤ opPage op := by
  unfold stepBody
  intro op h
  simp only [List.mem_cons, List.mem_append] at h
  rcases h with h1 | h2 | h3
  · rw [h1]; exact le_refl _
  · exact drawImages_ops_le env sp step.photos
      { c with y := c.y + 20, bold := true, size := 13 } op h2
  · exact le_trans
      (drawImages_page_le env sp step.photos
        { c with y := c.y + 20, bold := true, size := 13 })
      (drawTexts_ops_le wrap sp step.index 0 step.texts
        { (drawImages env sp step.photos
            { c with y := c.y + 20, bold := true, size := 13 }).1 with
            bold := false, size := 11 } op h3)

theorem processStep_page_le (env : ImgEnv) (wrap : TextWrap) (sp : Nat) (step : StepData)
    (c : Cursor) : c.page ≤ (processStep env wrap sp step c).1.page := by
  unfold processStep
  split
  · exact le_refl _
  · exact le_trans (ensureSpace_page_le _ c) (stepBody_page_le env wrap sp step _)

theorem processStep_ops_le (env : ImgEnv) (wrap : TextWrap) (sp : Nat) (step : StepData)
    (c : Cursor) : ∀ op ∈ (processStep env wrap sp step c).2, c.page ≤ opPage op := by
  unfold processStep
  split
  · intro op h; simp at h
  · intro op h
    exact le_trans (ensureSpace_page_le _ c) (stepBody_ops_le env wrap sp step _ op h)

/-! ### C2: the heading look-ahead reserve -/

/-- C2: for a non-empty step whose reserve exceeds the remaining space, the
reserve is the 20 pt heading height plus the scaled height of the first photo
plus a 12 pt gap (or the 40 pt fallback without photos); the check `spaceLeft <
reserve` starts a new page (page counter + 1, `y` back to the top margin)
before the heading is drawn; consequently every operation of that step lands on
a later page than the one the check was made on — in particular a step checked
on page 1 starts on page 2 with zero of its blocks on page 1. -/
theorem c2_reserve_lookahead (env : ImgEnv) (wrap : TextWrap) (sp : Nat)
    (step : StepData) (c : Cursor)
    (hne : ¬(step.photos = [] ∧ step.texts = []))
    (hlt : spaceLeft c < stepReserve env step) :
    (∀ u us d, step.photos = u :: us → env u = some d →
        stepReserve env step = 20 + ((scaleDims d).2 + 12)) ∧
      (step.photos = [] → stepReserve env step = 20 + 40) ∧
      ensureSpace (stepReserve env step) c = addPage c ∧
      (addPage c).page = c.page + 1 ∧ (addPage c).y = pdfMargin ∧
      processStep env wrap sp step c = stepBody env wrap sp step (addPage c) ∧
      (∀ op ∈ (processStep env wrap sp step c).2, c.page + 1 ≤ opPage op) := by
  have hens : ensureSpace (stepReserve env step) c = addPage c := by
    unfold ensureSpace
    rw [if_pos hlt]
  have hps : processStep env wrap sp step c = stepBody env wrap sp step (addPage c) := by
    unfold processStep
    rw [if_neg hne, hens]
  refine ⟨?_, ?_, hens, rfl, rfl, hps, ?_⟩
  · intro u us d hu hd
    simp [stepReserve, hu, hd]
  · intro hp
    simp [stepReserve, hp]
  · intro op h
    rw [hps] at h
    have := stepBody_ops_le env wrap sp step (addPage c) op h
    simpa [addPage] using this

/-- Witness step and cursor for `c2_reserve_lookahead`: one text item, no
photos (reserve 60), and a cursor 50 pt above the bottom margin on page 1. -/
def c2wstep : StepData :=
  { index := 1
    photos := []
    texts := [{ id := "a", content := "x", important := false }]
    done := false }

/-- Cursor 50 pt above the bottom margin of page 1. -/
def c2wcursor : Cursor :=
  { page := 1, y := pageH - pdfMargin - 50, color := (0, 0, 0), bold := false, size := 11 }

theorem c2_reserve_lookahead_witness :
    (¬(c2wstep.photos = [] ∧ c2wstep.texts = []) ∧
      spaceLeft c2wcursor < stepReserve c9env c2wstep) ∧
    ((∀ u us d, c2wstep.photos = u :: us → c9env u = some d →
        stepReserve c9env c2wstep = 20 + ((scaleDims d).2 + 12)) ∧
      (c2wstep.photos = [] → stepReserve c9env c2wstep = 20 + 40) ∧
      ensureSpace (stepReserve c9env c2wstep) c2wcursor = addPage c2wcursor ∧
      (addPage c2wcursor).page = c2wcursor.page + 1 ∧ (addPage c2wcursor).y = pdfMargin ∧
      processStep c9env c9wrap 0 c2wstep c2wcursor =
        stepBody c9env c9wrap 0 c2wstep (addPage c2wcursor) ∧
      (∀ op ∈ (processStep c9env c9wrap 0 c2wstep c2wcursor).2,
        c2wcursor.page + 1 ≤ opPage op)) :=
  ⟨⟨by simp [c2wstep], by norm_num [spaceLeft, stepReserve, c2wcursor, c2wstep, c9env]⟩,
    c2_reserve_lookahead c9env c9wrap 0 c2wstep c2wcursor
      (by simp [c2wstep])
      (by norm_num [spaceLeft, stepReserve, c2wcursor, c2wstep, c9env])⟩

/-! ### C1: block atomicity -/

/-- Well-formedness of the image collaborator: a decoded image reports positive
intrinsic pixel dimensions. -/
def EnvWF (env : ImgEnv) : Prop := ∀ u d, env u = some d → 0 < d.1 ∧ 0 < d.2

theorem scaleDims_h_le_max (d : ℚ × ℚ) (hh : 0 < d.2) : (scaleDims d).2 ≤ maxImgH := by
  have hsh : min (min (maxImgW / d.1) (maxImgH / d.2)) 1 ≤ maxImgH / d.2 :=
    le_trans (min_le_left _ _) (min_le_right _ _)
  show d.2 * min (min (maxImgW / d.1) (maxImgH / d.2)) 1 ≤ maxImgH
  calc d.2 * min (min (maxImgW / d.1) (maxImgH / d.2)) 1
      ≤ d.2 * (maxImgH / d.2) := mul_le_mul_of_nonneg_left hsh (le_of_lt hh)
    _ = maxImgH := by field_simp

/-- At this geometry the maximum image height never exceeds the usable page
height, so a scaled image always fits on a fresh page (the claim's degenerate
taller-than-page case cannot arise). -/
theorem maxImgH_le_usable : maxImgH ≤ pageH - pdfMargin * 2 := min_le_right _ _

/-- After `ensureSpace`, anything that fits on an empty page fits below the
cursor: either it already fit, or the cursor moved to the top of a new page. -/
theorem ensureSpace_fits (needed : ℚ) (c : Cursor)
    (h : needed ≤ pageH - pdfMargin * 2) :
    (ensureSpace needed c).y + needed ≤ pageH - pdfMargin := by
  unfold ensureSpace
  split
  · show pdfMargin + needed ≤ pageH - pdfMargin
    linarith
  · rename_i hns
    unfold spaceLeft at hns
    push_neg at hns
    show c.y + needed ≤ pageH - pdfMargin
    linarith

/-- An image operation drawn fully inside the vertical content area. -/
def ImgFits (op : Op) : Prop :=
  ∀ sp url pg y w h, op = Op.image sp url pg y w h → y + h ≤ pageH - pdfMargin

theorem imgFits_headerText (pg : Nat) (y : ℚ) : ImgFits (Op.headerText pg y) :=
  fun _ _ _ _ _ _ heq => Op.noConfusion heq

theorem imgFits_heading (sp sidx pg : Nat) (y : ℚ) (col : Nat × Nat × Nat) :
    ImgFits (Op.heading sp sidx pg y col) :=
  fun _ _ _ _ _ _ heq => Op.noConfusion heq

theorem imgFits_textLine (sp it li : Nat) (l : String) (pg : Nat) (y : ℚ)
    (col : Nat × Nat × Nat) (b : Bool) : ImgFits (Op.textLine sp it li l pg y col b) :=
  fun _ _ _ _ _ _ heq => Op.noConfusion heq

theorem imgFits_footerText (pg total slot : Nat) (col : Nat × Nat × Nat) :
    ImgFits (Op.footerText pg total slot col) :=
  fun _ _ _ _ _ _ heq => Op.noConfusion heq

theorem drawImage_imgFits (env : ImgEnv) (henv : EnvWF env) (sp : Nat) (u : String)
    (c : Cursor) : ∀ op ∈ (drawImage env sp u c).2, ImgFits op := by
  intro op hop
  unfold drawImage at hop
  cases he : env u with
  | none => rw [he] at hop; simp at hop
  | some d =>
    rw [he] at hop
    simp only [List.mem_singleton] at hop
    subst hop
    intro sp2 url2 pg y w hh heq
    simp only [Op.image.injEq] at heq
    obtain ⟨-, -, -, hy, -, hht⟩ := heq
    subst hy
    subst hht
    have hd2 : 0 < d.2 := (henv u d he).2
    have hle : (scaleDims d).2 ≤ pageH - pdfMargin * 2 :=
      le_trans (scaleDims_h_le_max d hd2) maxImgH_le_usable
    exact ensureSpace_fits _ c hle

theorem drawImages_imgFits (env : ImgEnv) (henv : EnvWF env) (sp : Nat) :
    ∀ (us : List String) (c : Cursor), ∀ op ∈ (drawImages env sp us c).2, ImgFits op
  | [], c => by intro op h; simp [drawImages] at h
  | u :: us, c => by
    intro op h
    simp only [drawImages, List.mem_append] at h
    cases h with
    | inl h1 => exact drawImage_imgFits env henv sp u c op h1
    | inr h2 => exact drawImages_imgFits env henv sp us _ op h2

theorem drawTextBlock_imgFits (wrap : TextWrap) (sp it sidx : Nat) (t : TextItem)
    (c : Cursor) : ∀ op ∈ (drawTextBlock wrap sp it sidx t c).2, ImgFits op := by
  intro op h
  obtain ⟨li, l, y, col, b, heq⟩ := drawTextBlock_ops_char wrap sp it sidx t c op h
  rw [heq]
  exact imgFits_textLine _ _ _ _ _ _ _ _

theorem drawTexts_imgFits (wrap : TextWrap) (sp sidx : Nat) :
    ∀ (i : Nat) (ts : List TextItem) (c : Cursor),
      ∀ op ∈ (drawTexts wrap sp sidx i ts c).2, ImgFits op
  | _, [], c => by intro op h; simp [drawTexts] at h
  | i, t :: ts, c => by
    intro op h
    simp only [drawTexts, List.mem_append] at h
    cases h with
    | inl h1 => exact drawTextBlock_imgFits wrap sp i sidx t c op h1
    | inr h2 => exact drawTexts_imgFits wrap sp sidx (i + 1) ts _ op h2

theorem stepBody_imgFits (env : ImgEnv) (henv : EnvWF env) (wrap : TextWrap) (sp : Nat)
    (step : StepData) (c : Cursor) :
    ∀ op ∈ (stepBody env wrap sp step c).2, ImgFits op := by
  unfold stepBody
  intro op h
  simp only [List.mem_cons, List.mem_append] at h
  rcases h with h1 | h2 | h3
  · rw [h1]; exact imgFits_heading _ _ _ _ _
  · exact drawImages_imgFits env henv sp step.photos _ op h2
  · exact drawTexts_imgFits wrap sp step.index 0 step.texts _ op h3

theorem processStep_imgFits (env : ImgEnv) (henv : EnvWF env) (wrap : TextWrap) (sp : Nat)
    (step : StepData) (c : Cursor) :
    ∀ op ∈ (processStep env wrap sp step c).2, ImgFits op := by
  unfold processStep
  split
  · intro op h; simp at h
  · intro op h
    exact stepBody_imgFits env henv wrap sp step _ op h

theorem runSteps_imgFits (env : ImgEnv) (henv : EnvWF env) (wrap : TextWrap) :
    ∀ (sp : Nat) (sts : List StepData) (c : Cursor),
      ∀ op ∈ (runSteps env wrap sp sts c).2, ImgFits op
  | _, [], c => by intro op h; simp [runSteps] at h
  | sp, st :: sts, c => by
    intro op h
    simp only [runSteps, List.mem_append] at h
    cases h with
    | inl h1 => exact processStep_imgFits env henv wrap sp st c op h1
    | inr h2 => exact runSteps_imgFits env henv wrap (sp + 1) sts _ op h2

theorem footerOps_imgFits (total : Nat) (c : Cursor) :
    ∀ op ∈ footerOps total c, ImgFits op := by
  intro op h
  simp only [footerOps, List.mem_flatMap, List.mem_cons, List.not_mem_nil, or_false] at h
  obtain ⟨i, -, h1 | h1 | h1⟩ := h <;> (rw [h1]; exact imgFits_footerText _ _ _ _)

theorem runExport_imgFits (env : ImgEnv) (henv : EnvWF env) (wrap : TextWrap)
    (p : ProcessData) : ∀ op ∈ (runExport env wrap p).2, ImgFits op := by
  unfold runExport
  intro op h
  rw [List.mem_append] at h
  cases h with
  | inr hf => exact footerOps_imgFits _ _ op hf
  | inl h12 =>
    rw [List.mem_append] at h12
    cases h12 with
    | inl hh =>
      simp only [drawHeader, List.mem_cons, List.not_mem_nil, or_false] at hh
      rcases hh with h1 | h1 <;> (rw [h1]; exact imgFits_headerText _ _)
    | inr hs => exact runSteps_imgFits env henv wrap 0 p.steps _ op hs

/-- Provenance and page of a text-line operation: (stepPos, itemIdx, page). -/
def tlProv : Op → Option (Nat × Nat × Nat)
  | .textLine sp it _ _ pg _ _ _ => some (sp, it, pg)
  | _ => none

theorem drawTextBlock_tlProv (wrap : TextWrap) (sp it sidx : Nat) (t : TextItem)
    (c : Cursor) :
    ∀ op ∈ (drawTextBlock wrap sp it sidx t c).2,
      tlProv op = some (sp, it, (drawTextBlock wrap sp it sidx t c).1.page) := by
  intro op h
  obtain ⟨li, l, y, col, b, heq⟩ := drawTextBlock_ops_char wrap sp it sidx t c op h
  rw [heq]
  rfl

/-- Every text-line operation of the text loop carries the loop's step
position and an item counter at least the starting one. -/
theorem drawTexts_tlProv_ge (wrap : TextWrap) (sp sidx : Nat) :
    ∀ (i : Nat) (ts : List TextItem) (c : Cursor), ∀ op ∈ (drawTexts wrap sp sidx i ts c).2,
      ∃ it2 pg, tlProv op = some (sp, it2, pg) ∧ i ≤ it2
  | _, [], c => by intro op h; simp [drawTexts] at h
  | i, t :: ts, c => by
    intro op h
    simp only [drawTexts, List.mem_append] at h
    cases h with
    | inl h1 =>
      exact ⟨i, _, drawTextBlock_tlProv wrap sp i sidx t c op h1, le_refl i⟩
    | inr h2 =>
      obtain ⟨it2, pg, hp, hge⟩ := drawTexts_tlProv_ge wrap sp sidx (i + 1) ts _ op h2
      exact ⟨it2, pg, hp, by omega⟩

/-- Two text-line operations of one text loop that belong to the same item are
drawn on the same page. -/
theorem drawTexts_samePage (wrap : TextWrap) (sp sidx : Nat) :
    ∀ (i : Nat) (ts : List TextItem) (c : Cursor),
      ∀ op1 ∈ (drawTexts wrap sp sidx i ts c).2,
      ∀ op2 ∈ (drawTexts wrap sp sidx i ts c).2,
      ∀ a it pg1 pg2, tlProv op1 = some (a, it, pg1) → tlProv op2 = some (a, it, pg2) →
        pg1 = pg2
  | _, [], c => by intro op1 h1; simp [drawTexts] at h1
  | i, t :: ts, c => by
    intro op1 h1 op2 h2 a it pg1 pg2 hp1 hp2
    simp only [drawTexts, List.mem_append] at h1 h2
    cases h1 with
    | inl hb1 =>
      have e1 := drawTextBlock_tlProv wrap sp i sidx t c op1 hb1
      rw [hp1] at e1
      simp only [Option.some.injEq, Prod.mk.injEq] at e1
      obtain ⟨ha, hit, hpg⟩ := e1
      cases h2 with
      | inl hb2 =>
        have e2 := drawTextBlock_tlProv wrap sp i sidx t c op2 hb2
        rw [hp2] at e2
        simp only [Option.some.injEq, Prod.mk.injEq] at e2
        rw [hpg, e2.2.2]
      | inr hr2 =>
        obtain ⟨it2, pg, hp, hge⟩ := drawTexts_tlProv_ge wrap sp sidx (i + 1) ts _ op2 hr2
        rw [hp2] at hp
        simp only [Option.some.injEq, Prod.mk.injEq] at hp
        omega
    | inr hr1 =>
      cases h2 with
      | inl hb2 =>
        have e2 := drawTextBlock_tlProv wrap sp i sidx t c op2 hb2
        rw [hp2] at e2
        simp only [Option.some.injEq, Prod.mk.injEq] at e2
        obtain ⟨it1, pg, hp, hge⟩ := drawTexts_tlProv_ge wrap sp sidx (i + 1) ts _ op1 hr1
        rw [hp1] at hp
        simp only [Option.some.injEq, Prod.mk.injEq] at hp
        omega
      | inr hr2 =>
        exact drawTexts_samePage wrap sp sidx (i + 1) ts _ op1 hr1 op2 hr2 a it pg1 pg2 hp1 hp2

theorem drawImage_tlProv_none (env : ImgEnv) (sp : Nat) (u : String) (c : Cursor) :
    ∀ op ∈ (drawImage env sp u c).2, tlProv op = none := by
  intro op h
  unfold drawImage at h
  cases he : env u with
  | none => rw [he] at h; simp at h
  | some d =>
    rw [he] at h
    simp only [List.mem_singleton] at h
    rw [h]
    rfl

theorem drawImages_tlProv_none (env : ImgEnv) (sp : Nat) :
    ∀ (us : List String) (c : Cursor), ∀ op ∈ (drawImages env sp us c).2, tlProv op = none
  | [], c => by intro op h; simp [drawImages] at h
  | u :: us, c => by
    intro op h
    simp only [drawImages, List.mem_append] at h
    cases h with
    | inl h1 => exact drawImage_tlProv_none env sp u c op h1
    | inr h2 => exact drawImages_tlProv_none env sp us _ op h2

theorem stepBody_tlProv_sp (env : ImgEnv) (wrap : TextWrap) (sp : Nat) (step : StepData)
    (c : Cursor) :
    ∀ op ∈ (stepBody env wrap sp step c).2,
      ∀ a it pg, tlProv op = some (a, it, pg) → a = sp := by
  unfold stepBody
  intro op h a it pg hp
  simp only [List.mem_cons, List.mem_append] at h
  rcases h with h1 | h2 | h3
  · rw [h1] at hp; simp [tlProv] at hp
  · rw [drawImages_tlProv_none env sp step.photos _ op h2] at hp; simp at hp
  · obtain ⟨it2, pg2, hp2, -⟩ := drawTexts_tlProv_ge wrap sp step.index 0 step.texts _ op h3
    rw [hp2] at hp
    simp only [Option.some.injEq, Prod.mk.injEq] at hp
    exact hp.1.symm

theorem stepBody_samePage (env : ImgEnv) (wrap : TextWrap) (sp : Nat) (step : StepData)
    (c : Cursor) :
    ∀ op1 ∈ (stepBody env wrap sp step c).2, ∀ op2 ∈ (stepBody env wrap sp step c).2,
      ∀ a it pg1 pg2, tlProv op1 = some (a, it, pg1) → tlProv op2 = some (a, it, pg2) →
        pg1 = pg2 := by
  unfold stepBody
  intro op1 h1 op2 h2 a it pg1 pg2 hp1 hp2
  simp only [List.mem_cons, List.mem_append] at h1 h2
  rcases h1 with hh1 | hi1 | ht1
  · rw [hh1] at hp1; simp [tlProv] at hp1
  · rw [drawImages_tlProv_none env sp step.photos _ op1 hi1] at hp1; simp at hp1
  · rcases h2 with hh2 | hi2 | ht2
    · rw [hh2] at hp2; simp [tlProv] at hp2
    · rw [drawImages_tlProv_none env sp step.photos _ op2 hi2] at hp2; simp at hp2
    · exact drawTexts_samePage wrap sp step.index 0 step.texts _ op1 ht1 op2 ht2
        a it pg1 pg2 hp1 hp2

theorem processStep_tlProv_sp (env : ImgEnv) (wrap : TextWrap) (sp : Nat) (step : StepData)
    (c : Cursor) :
    ∀ op ∈ (processStep env wrap sp step c).2,
      ∀ a it pg, tlProv op = some (a, it, pg) → a = sp := by
  unfold processStep
  split
  · intro op h; simp at h
  · intro op h; exact stepBody_tlProv_sp env wrap sp step _ op h

theorem processStep_samePage (env : ImgEnv) (wrap : TextWrap) (sp : Nat) (step : StepData)
    (c : Cursor) :
    ∀ op1 ∈ (processStep env wrap sp step c).2, ∀ op2 ∈ (processStep env wrap sp step c).2,
      ∀ a it pg1 pg2, tlProv op1 = some (a, it, pg1) → tlProv op2 = some (a, it, pg2) →
        pg1 = pg2 := by
  unfold processStep
  split
  · intro op1 h1; simp at h1
  · intro op1 h1 op2 h2; exact stepBody_samePage env wrap sp step _ op1 h1 op2 h2

theorem runSteps_tlProv_ge (env : ImgEnv) (wrap : TextWrap) :
    ∀ (sp : Nat) (sts : List StepData) (c : Cursor), ∀ op ∈ (runSteps env wrap sp sts c).2,
      ∀ a it pg, tlProv op = some (a, it, pg) → sp ≤ a
  | _, [], c => by intro op h; simp [runSteps] at h
  | sp, st :: sts, c => by
    intro op h a it pg hp
    simp only [runSteps, List.mem_append] at h
    cases h with
    | inl h1 => exact le_of_eq (processStep_tlProv_sp env wrap sp st c op h1 a it pg hp).symm
    | inr h2 =>
      have := runSteps_tlProv_ge env wrap (sp + 1) sts _ op h2 a it pg hp
      omega

theorem runSteps_samePage (env : ImgEnv) (wrap : TextWrap) :
    ∀ (sp : Nat) (sts : List StepData) (c : Cursor),
      ∀ op1 ∈ (runSteps env wrap sp sts c).2, ∀ op2 ∈ (runSteps env wrap sp sts c).2,
      ∀ a it pg1 pg2, tlProv op1 = some (a, it, pg1) → tlProv op2 = some (a, it, pg2) →
        pg1 = pg2
  | _, [], c => by intro op1 h1; simp [runSteps] at h1
  | sp, st :: sts, c => by
    intro op1 h1 op2 h2 a it pg1 pg2 hp1 hp2
    simp only [runSteps, List.mem_append] at h1 h2
    cases h1 with
    | inl hs1 =>
      cases h2 with
      | inl hs2 => exact processStep_samePage env wrap sp st c op1 hs1 op2 hs2 a it pg1 pg2 hp1 hp2
      | inr hr2 =>
        have ha1 : a = sp := processStep_tlProv_sp env wrap sp st c op1 hs1 a it pg1 hp1
        have ha2 : sp + 1 ≤ a := runSteps_tlProv_ge env wrap (sp + 1) sts _ op2 hr2 a it pg2 hp2
        omega
    | inr hr1 =>
      cases h2 with
      | inl hs2 =>
        have ha2 : a = sp := processStep_tlProv_sp env wrap sp st c op2 hs2 a it pg2 hp2
        have ha1 : sp + 1 ≤ a := runSteps_tlProv_ge env wrap (sp + 1) sts _ op1 hr1 a it pg1 hp1
        omega
      | inr hr2 =>
        exact runSteps_samePage env wrap (sp + 1) sts _ op1 hr1 op2 hr2 a it pg1 pg2 hp1 hp2

theorem footerOps_tlProv_none (total : Nat) (c : Cursor) :
    ∀ op ∈ footerOps total c, tlProv op = none := by
  intro op h
  simp only [footerOps, List.mem_flatMap, List.mem_cons, List.not_mem_nil, or_false] at h
  obtain ⟨i, -, h1 | h1 | h1⟩ := h <;> (rw [h1]; rfl)

theorem runExport_samePage (env : ImgEnv) (wrap : TextWrap) (p : ProcessData) :
    ∀ op1 ∈ (runExport env wrap p).2, ∀ op2 ∈ (runExport env wrap p).2,
      ∀ a it pg1 pg2, tlProv op1 = some (a, it, pg1) → tlProv op2 = some (a, it, pg2) →
        pg1 = pg2 := by
  unfold runExport
  intro op1 h1 op2 h2 a it pg1 pg2 hp1 hp2
  rw [List.mem_append] at h1 h2
  have hsteps1 : op1 ∈ (runSteps env wrap 0 p.steps (drawHeader initCursor).1).2 := by
    rcases h1 with h1 | hf
    · rw [List.mem_append] at h1
      rcases h1 with hh | hs
      · simp only [drawHeader, List.mem_cons, List.not_mem_nil, or_false] at hh
        rcases hh with hh | hh <;> (rw [hh] at hp1; simp [tlProv] at hp1)
      · exact hs
    · rw [footerOps_tlProv_none _ _ op1 hf] at hp1; simp at hp1
  have hsteps2 : op2 ∈ (runSteps env wrap 0 p.steps (drawHeader initCursor).1).2 := by
    rcases h2 with h2 | hf
    · rw [List.mem_append] at h2
      rcases h2 with hh | hs
      · simp only [drawHeader, List.mem_cons, List.not_mem_nil, or_false] at hh
        rcases hh with hh | hh <;> (rw [hh] at hp2; simp [tlProv] at hp2)
      · exact hs
    · rw [footerOps_tlProv_none _ _ op2 hf] at hp2; simp at hp2
  exact runSteps_samePage env wrap 0 p.steps _ op1 hsteps1 op2 hsteps2 a it pg1 pg2 hp1 hp2

/-- C1: atomicity of the page assignment.  (a) Every image operation lies
fully inside the vertical content area of its single page — at this geometry a
scaled image height never exceeds the usable page height (`maxImgH ≤ pageH -
2·margin`), so the documented taller-than-page overflow case cannot arise and
the containment is unconditional.  (b) Any two text-line operations belonging
to the same text block (same step position and item index) are drawn on the
same page: a wrapped-line group never starts on one page and continues on the
next. -/
theorem c1_atomicity (env : ImgEnv) (wrap : TextWrap) (p : ProcessData)
    (henv : EnvWF env) :
    (∀ sp url pg y w h, Op.image sp url pg y w h ∈ (runExport env wrap p).2 →
        y + h ≤ pageH - pdfMargin) ∧
      (∀ sp it li1 li2 l1 l2 pg1 pg2 y1 y2 col1 col2 b1 b2,
        Op.textLine sp it li1 l1 pg1 y1 col1 b1 ∈ (runExport env wrap p).2 →
        Op.textLine sp it li2 l2 pg2 y2 col2 b2 ∈ (runExport env wrap p).2 →
        pg1 = pg2) := by
  constructor
  · intro sp url pg y w h hmem
    exact runExport_imgFits env henv wrap p _ hmem sp url pg y w h rfl
  · intro sp it li1 li2 l1 l2 pg1 pg2 y1 y2 col1 col2 b1 b2 h1 h2
    exact runExport_samePage env wrap p _ h1 _ h2 sp it pg1 pg2 rfl rfl

/-- Image collaborator for the C1 witness: every reference decodes to a
1000 × 500 px image. -/
def c1wenv : ImgEnv := fun _ => some (1000, 500)

/-- Witness for `c1_atomicity`: a process with a photo and a text item, under
a well-formed image collaborator. -/
theorem c1_atomicity_witness :
    EnvWF c1wenv ∧
    ((∀ sp url pg y w h, Op.image sp url pg y w h ∈ (runExport c1wenv c9wrap c4wp).2 →
        y + h ≤ pageH - pdfMargin) ∧
      (∀ sp it li1 li2 l1 l2 pg1 pg2 y1 y2 col1 col2 b1 b2,
        Op.textLine sp it li1 l1 pg1 y1 col1 b1 ∈ (runExport c1wenv c9wrap c4wp).2 →
        Op.textLine sp it li2 l2 pg2 y2 col2 b2 ∈ (runExport c1wenv c9wrap c4wp).2 →
        pg1 = pg2)) :=
  have hwf : EnvWF c1wenv := by
    intro u d hd
    simp only [c1wenv, Option.some.injEq] at hd
    rw [← hd]
    norm_num
  ⟨hwf, c1_atomicity c1wenv c9wrap c4wp hwf⟩

/-! ### C6: block order -/

/-- A block-level tag: one entry per heading, rendered image, or text item. -/
inductive BTag where
  | heading (stepPos stepIndex : Nat)
  | image (stepPos : Nat) (url : String)
  | text (stepPos itemIdx : Nat)
deriving DecidableEq, Repr

/-- Block-level view of a drawing trace: headings and images one tag each, a
text block is represented by its first wrapped line (`lineIdx = 0`), header
and footer operations are not content blocks. -/
def blockTags (ops : List Op) : List BTag :=
  ops.filterMap fun op =>
    match op with
    | .heading sp sidx _ _ _ => some (.heading sp sidx)
    | .image sp url _ _ _ _ => some (.image sp url)
    | .textLine sp it li _ _ _ _ _ => if li = 0 then some (.text sp it) else none
    | _ => none

/-- Modelled from the spec (§4.1 Content Model Builder, C6): the expected
block sequence — for each step with content, in step order: exactly one
heading, then the step's (decodable) photos in original order, then its text
items in original order; an empty step contributes nothing. -/
def specStepTags (env : ImgEnv) (sp : Nat) (st : StepData) : List BTag :=
  if st.photos = [] ∧ st.texts = [] then []
  else BTag.heading sp st.index ::
    (st.photos.filterMap (fun u => (env u).map fun _ => BTag.image sp u) ++
      (List.range st.texts.length).map fun i => BTag.text sp i)

/-- Modelled from the spec: the expected block sequence of the whole record. -/
def specBlocks (env : ImgEnv) : Nat → List StepData → List BTag
  | _, [] => []
  | sp, st :: sts => specStepTags env sp st ++ specBlocks env (sp + 1) sts

theorem blockTags_append (a b : List Op) : blockTags (a ++ b) = blockTags a ++ blockTags b :=
  List.filterMap_append a b _

theorem blockTags_drawImage (env : ImgEnv) (sp : Nat) (u : String) (c : Cursor) :
    blockTags (drawImage env sp u c).2 =
      ((env u).map fun _ => BTag.image sp u).toList := by
  unfold drawImage
  cases he : env u <;> rfl

theorem blockTags_drawImages (env : ImgEnv) (sp : Nat) :
    ∀ (us : List String) (c : Cursor),
      blockTags (drawImages env sp us c).2 =
        us.filterMap fun u => (env u).map fun _ => BTag.image sp u
  | [], _ => rfl
  | u :: us, c => by
    show blockTags ((drawImage env sp u c).2 ++ _) = _
    rw [blockTags_append, blockTags_drawImage, blockTags_drawImages env sp us _,
      List.filterMap_cons]
    cases env u <;> rfl

theorem blockTags_drawLines_pos (sp it : Nat) :
    ∀ (li : Nat) (ls : List String) (c : Cursor),
      blockTags (drawLines sp it (li + 1) ls c).2 = []
  | _, [], _ => rfl
  | li, l :: ls, c => by
    show blockTags (Op.textLine sp it (li + 1) l c.page c.y c.color c.bold :: _) = []
    have hrest := blockTags_drawLines_pos sp it (li + 1) ls { c with y := c.y + 14 }
    simp [blockTags, List.filterMap_cons] at hrest ⊢
    exact hrest

theorem blockTags_drawLines_zero (sp it : Nat) (ls : List String) (c : Cursor)
    (h : ls ≠ []) : blockTags (drawLines sp it 0 ls c).2 = [BTag.text sp it] := by
  cases ls with
  | nil => exact absurd rfl h
  | cons l ls =>
    show blockTags (Op.textLine sp it 0 l c.page c.y c.color c.bold :: _) = _
    have hrest := blockTags_drawLines_pos sp it 0 ls { c with y := c.y + 14 }
    simp [blockTags, List.filterMap_cons] at hrest ⊢
    exact hrest

theorem blockTags_drawTextBlock (wrap : TextWrap) (sp it sidx : Nat) (t : TextItem)
    (c : Cursor) (hw : ∀ s, wrap s ≠ []) :
    blockTags (drawTextBlock wrap sp it sidx t c).2 = [BTag.text sp it] := by
  unfold drawTextBlock
  split <;> exact blockTags_drawLines_zero sp it _ _ (hw _)

theorem blockTags_drawTexts (wrap : TextWrap) (sp sidx : Nat) (hw : ∀ s, wrap s ≠ []) :
    ∀ (i : Nat) (ts : List TextItem) (c : Cursor),
      blockTags (drawTexts wrap sp sidx i ts c).2 =
        (List.range ts.length).map fun k => BTag.text sp (i + k)
  | _, [], _ => rfl
  | i, t :: ts, c => by
    show blockTags ((drawTextBlock wrap sp i sidx t c).2 ++ _) = _
    rw [blockTags_append, blockTags_drawTextBlock wrap sp i sidx t c hw,
      blockTags_drawTexts wrap sp sidx hw (i + 1) ts _]
    simp only [List.length_cons, List.range_succ_eq_map, List.map_cons, List.map_map,
      Function.comp_def, Nat.add_zero, List.singleton_append]
    congr 1
    exact List.map_congr_left fun k _ => by congr 1 <;> omega

theorem blockTags_stepBody (env : ImgEnv) (wrap : TextWrap) (sp : Nat) (step : StepData)
    (c : Cursor) (hw : ∀ s, wrap s ≠ []) :
    blockTags (stepBody env wrap sp step c).2 =
      BTag.heading sp step.index ::
        (step.photos.filterMap (fun u => (env u).map fun _ => BTag.image sp u) ++
          (List.range step.texts.length).map fun k => BTag.text sp k) := by
  unfold stepBody
  show blockTags (Op.heading sp step.index _ _ _ :: (_ ++ _)) = _
  have : ∀ (l : List Op) (pg : Nat) (y : ℚ) (col : Nat × Nat × Nat),
      blockTags (Op.heading sp step.index pg y col :: l) =
        BTag.heading sp step.index :: blockTags l := fun _ _ _ _ => rfl
  rw [this, blockTags_append, blockTags_drawImages env sp step.photos _,
    blockTags_drawTexts wrap sp step.index hw 0 step.texts _]
  simp only [Nat.zero_add]

theorem blockTags_processStep (env : ImgEnv) (wrap : TextWrap) (sp : Nat)
    (step : StepData) (c : Cursor) (hw : ∀ s, wrap s ≠ []) :
    blockTags (processStep env wrap sp step c).2 = specStepTags env sp step := by
  unfold processStep specStepTags
  split
  · rfl
  · exact blockTags_stepBody env wrap sp step _ hw

theorem blockTags_runSteps (env : ImgEnv) (wrap : TextWrap) (hw : ∀ s, wrap s ≠ []) :
    ∀ (sp : Nat) (sts : List StepData) (c : Cursor),
      blockTags (runSteps env wrap sp sts c).2 = specBlocks env sp sts
  | _, [], _ => rfl
  | sp, st :: sts, c => by
    show blockTags ((processStep env wrap sp st c).2 ++ _) = _
    rw [blockTags_append, blockTags_processStep env wrap sp st c hw,
      blockTags_runSteps env wrap hw (sp + 1) sts _]
    rfl

theorem blockTags_drawHeader (c : Cursor) : blockTags (drawHeader c).2 = [] := rfl

theorem blockTags_footerOps (total : Nat) (c : Cursor) :
    blockTags (footerOps total c) = [] := by
  unfold footerOps
  induction List.range total with
  | nil => rfl
  | cons i l ih =>
    rw [List.flatMap_cons, blockTags_append, ih]
    rfl

/-- C6: under any image collaborator and any wrapper that never produces an
empty line list, the block-level view of the whole export trace is exactly the
spec's content model: per step with content, in step order, one heading, then
the step's rendered images in original photo order, then its text items in
original text order, never interleaved; a step with no photos and no texts
contributes no blocks. -/
theorem c6_block_order (env : ImgEnv) (wrap : TextWrap) (p : ProcessData)
    (hw : ∀ s, wrap s ≠ []) :
    blockTags (runExport env wrap p).2 = specBlocks env 0 p.steps := by
  unfold runExport
  rw [blockTags_append, blockTags_append, blockTags_runSteps env wrap hw,
    blockTags_footerOps, blockTags_drawHeader]
  simp only [List.nil_append, List.append_nil]

/-- Witness for `c6_block_order` on a record with a photo and a text item. -/
theorem c6_block_order_witness :
    (∀ s, c9wrap s ≠ []) ∧
      blockTags (runExport c1wenv c9wrap c4wp).2 = specBlocks c1wenv 0 c4wp.steps :=
  have hw : ∀ s, c9wrap s ≠ [] := fun s => by simp [c9wrap]
  ⟨hw, c6_block_order c1wenv c9wrap c4wp hw⟩

end ProzessDoku
